import Mathlib

/-!
Verification development for the browser-extension automation engine
(`src/automation.py` and its near-duplicate `src/spa_automation.py`).

The repository drives a wallet browser extension through a remote browser.
The parts with algorithmic content are embedded here as pure Lean
functions:

* `unique` — order-preserving deduplication (`automation.py` lines 26-31,
  the `sort = False` branch, which is the one used by every modeled call
  site);
* `read_array` — wordlist-file parsing (lines 33-47), modeled over the
  list of lines of the file;
* `brute_force_loop` / `unlock_brute_force` — the credential brute-force
  probe (lines 504-520), with the UI lock oracle abstracted as a
  per-candidate boolean function;
* `build_paths` / `access_control` — the access-control target-catalog
  construction and scan loop (lines 540-617), with per-target page
  measurements abstracted as a function from target path to an oracle
  record;
* `run_trace` — the event-trace semantics of `Test.run` (lines 680-691),
  the try/except/finally runner, used to settle the teardown and
  configuration-error claims.

Browser I/O itself (Playwright) is external; visibility probes and text
sizes enter the model as oracle parameters.
-/

/-! ## Python string primitives

The catalog construction uses `str.split(sep, 1)[0]`, `str.strip(chars)`,
`str.rsplit(sep, 1)[-1]`, `str.strip()` and `str.lower()`.  They are
modeled character-exactly on `List Char` (for `lower` and `strip()` on the
ASCII range, which covers every string the program manipulates). -/

/-- Python `str.split(sep, 1)[0]` for a non-empty separator: the part of
the string before the first occurrence of `sep` (the whole string if
`sep` does not occur). -/
def takeUntilSub (sep : List Char) : List Char → List Char
  | [] => []
  | c :: cs => if List.isPrefixOf sep (c :: cs) then [] else c :: takeUntilSub sep cs

def py_split_first (s : String) (sep : String) : String :=
  String.mk (takeUntilSub sep.data s.data)

/-- Python `str.strip(c)` for a one-character strip set: removes every
leading and trailing occurrence of `c`. -/
def py_strip (c : Char) (s : String) : String :=
  String.mk (((s.data.dropWhile (fun d => d == c)).reverse.dropWhile (fun d => d == c)).reverse)

/-- Python `str.rsplit(c, 1)[-1]` for a one-character separator: the part
of the string after the last occurrence of `c` (the whole string if `c`
does not occur). -/
def py_rsplit_last (c : Char) (s : String) : String :=
  String.mk ((s.data.reverse.takeWhile (fun d => d != c)).reverse)

/-- Python whitespace characters recognized by `str.strip()`. -/
def is_py_space (c : Char) : Bool :=
  c == ' ' || c == '\t' || c == '\n' || c == '\r' || c == '\x0b' || c == '\x0c'

/-- Python `str.strip()`: removes leading and trailing whitespace. -/
def py_strip_ws (s : String) : String :=
  String.mk (((s.data.dropWhile is_py_space).reverse.dropWhile is_py_space).reverse)

/-- Python `str.lower()` on the ASCII range (the only range the program
feeds it: state literals such as `"Locked"`). -/
def py_lower_char (c : Char) : Char :=
  if 'A' ≤ c ∧ c ≤ 'Z' then Char.ofNat (c.toNat + 32) else c

def py_lower (s : String) : String :=
  String.mk (s.data.map py_lower_char)

/-! ## `unique` (automation.py / spa_automation.py, lines 26-31)

`unique(sequence, sort=False)` keeps the first occurrence of each element,
preserving order, via a `seen` set.  All modeled call sites
(`read_array` from `unlock_brute_force`, and the `paths` catalog in
`access_control`) use the default `sort=False`, so only that branch is
embedded; the `seen` set is represented by a list queried by membership. -/

def uniqueAux {α : Type} [DecidableEq α] (seen : List α) : List α → List α
  | [] => []
  | x :: xs => if x ∈ seen then uniqueAux seen xs else x :: uniqueAux (x :: seen) xs

def unique {α : Type} [DecidableEq α] (sequence : List α) : List α :=
  uniqueAux [] sequence

/-! ## `read_array` (automation.py, lines 33-47)

Reads a file line by line, strips each line, keeps non-blank lines, then
deduplicates with `unique` (the `sort` parameter defaults to `False` and
the brute-force call site leaves it there).  The filesystem is external:
the model takes the file content as its list of lines; the error branches
(missing file, unreadable file, empty file) all yield `unique [] = []`. -/

def read_array (lines : List String) : List String :=
  unique ((lines.map py_strip_ws).filter (fun line => line ≠ ""))

/-! ## Brute-force unlock (automation.py, lines 504-520)

The loop body is `__fill_password_submit(page, password, "button",
"unlock")` followed by the oracle check `not await self.__locked(page)`.
The oracle is abstracted as `unlocks : String → Bool`, `true` meaning that
after attempting this candidate the page no longer shows the unlock
affordance.  The loop reports the candidate and breaks on the first
success; finishing the list is a normal return (a negative finding). -/

def brute_force_loop (unlocks : String → Bool) : List String → Option String × Nat
  | [] => (none, 0)
  | p :: ps =>
    if unlocks p then (some p, 1)
    else
      let r := brute_force_loop unlocks ps
      (r.1, r.2 + 1)

/-- The list of candidates actually attempted by the loop, in order. -/
def brute_force_attempted (unlocks : String → Bool) : List String → List String
  | [] => []
  | p :: ps => p :: (if unlocks p then [] else brute_force_attempted unlocks ps)

/-- Number of attempts after which the oracle still reported `Locked`. -/
def brute_force_failed (unlocks : String → Bool) (candidates : List String) : Nat :=
  (brute_force_attempted unlocks candidates).countP (fun p => !unlocks p)

/-- The whole probe on the wordlist file content: candidates are
`read_array` of the file's lines (automation.py line 513), iterated in
order by `brute_force_loop`.  Returns the reported credential (if any)
and the number of `unlockWithPassword` attempts made. -/
def unlock_brute_force (fileLines : List String) (unlocks : String → Bool) :
    Option String × Nat :=
  brute_force_loop unlocks (read_array fileLines)

/-! ## Access-control scan (automation.py, lines 540-617)

`access_control` lowercases the extra value; `"locked"` forces the lock,
`"unlocked"` forces an unlock, anything else prints an error and returns
before the target catalog is built.  The catalog is the cross product of
the fixed page list and the fixed fragment list (bare page first, then
`page#fragment` for each fragment), normalized exactly as in lines
589-598 and deduplicated with `unique` (line 599).  The scan loop
(lines 603-615) measures each target and flags it unless the size is
below 1 or the guard for the required state holds. -/

/-- Per-target UI measurements, abstracting the Playwright probes used in
the scan loop: visibility and text length of `div[id=app-content]`, the
`__locked` probe (visibility of the unlock button), and visibility of
`div[class=wallet-overview__balance]`. -/
structure Measurement where
  rootVisible : Bool
  rootTextLen : Nat
  unlockButtonVisible : Bool
  balanceOverviewVisible : Bool
  deriving DecidableEq

/-- Line 609: `size = get_size("div[id=app-content]") if
is_visible("div[id=app-content]") else 0`. -/
def measured_size (meas : Measurement) : Nat :=
  if meas.rootVisible then meas.rootTextLen else 0

/-- Line 610: the target is skipped (`continue`, not flagged) when
`size < 1 or (state == "locked" and locked) or (state == "unlocked" and
balance_visible)`; otherwise it is flagged as a leak. -/
def leak_flag (state : String) (size : Nat) (lockedVisible balanceVisible : Bool) : Bool :=
  if size < 1 ∨ (state = "locked" ∧ lockedVisible = true)
      ∨ (state = "unlocked" ∧ balanceVisible = true) then
    false
  else
    true

/-- One evaluated target of the scan loop: its path, whether a fresh page
was opened for it (line 605-606: a new page whenever the previous target
was flagged, and for the first target), the measured size, and the leak
flag. -/
structure ScanEntry where
  path : String
  freshPage : Bool
  size : Nat
  flag : Bool
  deriving DecidableEq

/-- The scan loop of lines 603-615.  `success` is the loop variable of the
source: it enters an iteration `true` when the previous target was flagged
(or at the start), causing a fresh page; it leaves the iteration equal to
the current target's flag. -/
def access_control_loop (state : String) (m : String → Measurement) :
    Bool → List String → List ScanEntry
  | _, [] => []
  | success, path :: rest =>
    let meas := m path
    let size := measured_size meas
    let flag := leak_flag state size meas.unlockButtonVisible meas.balanceOverviewVisible
    ⟨path, success, size, flag⟩ :: access_control_loop state m flag rest

/-- The fixed page list (lines 553-555). -/
def ac_pages : List String :=
  ["/home.html"]

/-- The fixed fragment list (lines 556-587). -/
def ac_fragments : List String :=
  ["#new-account",
   "#new-account/connect",
   "#notifications",
   "#restore-vault",
   "#seed",
   "#send",
   "#settings",
   "#settings/about-us",
   "#settings/advanced",
   "#settings/alerts",
   "#settings/contact-list",
   "#settings/contact-list/add-contact",
   "#settings/contact-list/edit-contact",
   "#settings/contact-list/view-contact",
   "#settings/general",
   "#settings/networks",
   "#settings/networks/form",
   "#settings/security",
   "#snaps",
   "#snaps/view",
   "#swaps",
   "#swaps/awaiting-signatures",
   "#swaps/build-quote",
   "#swaps/loading-quotes",
   "#swaps/maintenance",
   "#swaps/notification-page",
   "#swaps/prepare-swap-page",
   "#swaps/smart-transaction-status",
   "#swaps/swaps-error",
   "#swaps/view-quote"]

/-- Catalog construction, lines 589-599: for each page, normalize it
(`page.split(".html", 1)[0].strip("/")`), skip it if empty, else append
the bare `/stem.html` and then, for each fragment, normalize the fragment
(`fragment.rsplit("#", 1)[-1].strip("/")`), skip it if empty, else append
`page#fragment`; finally `paths = unique(paths)`. -/
def build_paths (pages fragments : List String) : List String :=
  unique
    ((pages.map (fun p =>
        let stem := py_strip '/' (py_split_first p (".html"))
        if stem = "" then []
        else
          let pg := "/" ++ stem ++ ".html"
          pg :: fragments.filterMap (fun f =>
            let fr := py_strip '/' (py_rsplit_last '#' f)
            if fr = "" then none else some (pg ++ "#" ++ fr)))).flatten)

/-- The catalog actually scanned by `access_control`. -/
def ac_paths : List String :=
  build_paths ac_pages ac_fragments

/-- Which lock-state change the scan forces before enumerating targets
(lines 545-548): `__lock` for `"locked"`, `__unlock` for `"unlocked"`. -/
inductive ForcedAction where
  | forceLock
  | forceUnlock
  deriving DecidableEq

/-- The probe as a whole (lines 540-617), given the extra value and the
per-target measurement oracle: lowercase the value; on `"locked"` or
`"unlocked"` force that state and run the scan loop over the catalog (the
first iteration opens a fresh page, so the loop starts with
`success = True`); on anything else report the error and return with no
forced state change and no target evaluated. -/
def access_control (value : String) (m : String → Measurement) :
    Option ForcedAction × List ScanEntry :=
  let state := py_lower value
  if state = "locked" then
    (some ForcedAction.forceLock, access_control_loop state m true ac_paths)
  else if state = "unlocked" then
    (some ForcedAction.forceUnlock, access_control_loop state m true ac_paths)
  else
    (none, [])

/-! ## Event-trace semantics of the runner (automation.py, lines 680-691)

`Test.run` wraps one selected flow in `try/except/finally`: it starts the
browser, runs the flow, prompts on completion; a Playwright error
(navigation failure, locator timeout, target closed) or a
`KeyboardInterrupt` is caught and printed; the `finally` block always
runs `browser_stop` (close the context, stop the driver).  The model
records a run as the list of externally visible events in order.  A flow
is represented by its full event list; a raised failure or interrupt cuts
the flow after some prefix of those events. -/

def wordlistRequiredMsg : String :=
  "Wordlist is required, please pass it manually using the \"-v\" option"

def mnemonicRequiredMsg : String :=
  "Mnemonic is required, please pass it manually using the \"-v\" option"

def stateRequiredMsg : String :=
  "Lock state is required, please pass \"locked\" or \"unlocked\" manually using the \"-v\" option"

def notCreatedMsg : String :=
  "Wallet is not created"

def alreadyCreatedMsg : String :=
  "Wallet is already created"

/-- Externally visible events of a run, in program order. -/
inductive Event where
  | browserStart
  | newPage
  | gotoExt (path : String)
  | tickBox
  | submitBtn (text : String)
  | fillSeq (words : List String)
  | attempt (password : String)
  | alertUnlocked (password : String)
  | forceLock
  | forceUnlock
  | evalTarget (path : String)
  | alertLeak (path : String)
  | errorReport (msg : String)
  | donePrompt
  | browserStop
  deriving DecidableEq

/-- Events of the brute-force loop (lines 515-519): one `attempt` per
candidate; on the first success, the alert and the `break`. -/
def brute_force_events (unlocks : String → Bool) : List String → List Event
  | [] => []
  | p :: ps =>
    Event.attempt p ::
      (if unlocks p then [Event.alertUnlocked p] else brute_force_events unlocks ps)

/-- Events of `unlock_brute_force` (lines 504-520): open a page, navigate
to the extension; if the wallet is created, force the lock (`__lock`
navigates only when not already locked), then either report the missing
wordlist (empty extra value, line 510-511) or run the attempts over
`read_array` of the wordlist file. -/
def unlock_brute_force_events (created alreadyLocked : Bool) (value : String)
    (fileLines : List String) (unlocks : String → Bool) : List Event :=
  Event.newPage :: Event.gotoExt ("") ::
    (if created then
      (if alreadyLocked then [] else [Event.forceLock]) ++
        (if value = "" then [Event.errorReport wordlistRequiredMsg]
         else brute_force_events unlocks (read_array fileLines))
     else [Event.errorReport notCreatedMsg])

/-- Events of the `existing` (ImportExisting) flow, lines 476-494: the
onboarding clicks happen before the mnemonic is read; a missing mnemonic
(empty extra value) is reported at line 485, otherwise the recovery
phrase is filled token by token (`mnemonic.split(" ")`) and onboarding
completes. -/
def existing_events (created : Bool) (value : String) : List Event :=
  Event.newPage :: Event.gotoExt ("") ::
    (if created then [Event.errorReport alreadyCreatedMsg]
     else
       Event.tickBox :: Event.submitBtn ("import an existing wallet") ::
         Event.submitBtn ("no thanks") ::
           (if value = "" then [Event.errorReport mnemonicRequiredMsg]
            else
              [Event.fillSeq (value.splitOn (" ")),
               Event.submitBtn ("confirm Secret Recovery Phrase"),
               Event.tickBox,
               Event.submitBtn ("import my wallet"),
               Event.submitBtn ("got it"),
               Event.submitBtn ("next"),
               Event.submitBtn ("done"),
               Event.submitBtn ("popover-close")]))

/-- Events of the scan loop, derived from its entries: a fresh page when
the previous target was flagged, the navigation/measurement of the
target, and the leak alert when flagged. -/
def scan_events (entries : List ScanEntry) : List Event :=
  (entries.map (fun e =>
    (if e.freshPage then [Event.newPage] else []) ++
      Event.evalTarget e.path ::
        (if e.flag then [Event.alertLeak e.path] else []))).flatten

/-- Events of `access_control` (lines 540-617): open a page, navigate; if
the wallet is created, dispatch on the lowercased extra value — force the
required state and scan, or report the missing/invalid state literal and
return. -/
def access_control_events (created : Bool) (value : String)
    (m : String → Measurement) : List Event :=
  Event.newPage :: Event.gotoExt ("") ::
    (if created then
      (match access_control value m with
       | (some ForcedAction.forceLock, entries) => Event.forceLock :: scan_events entries
       | (some ForcedAction.forceUnlock, entries) => Event.forceUnlock :: scan_events entries
       | (none, _) => [Event.errorReport stateRequiredMsg])
     else [Event.errorReport notCreatedMsg])

/-- How the `try` block of `Test.run` ends: normal completion, or one of
the caught exceptions (`TargetClosedError`, `TimeoutError`, a Playwright
navigation error, `KeyboardInterrupt`) raised after `k` of the flow's
events have happened. -/
inductive RunOutcome where
  | ok
  | navError (k : Nat)
  | locatorTimeout (k : Nat)
  | targetClosed (k : Nat)
  | interrupt (k : Nat)
  deriving DecidableEq

/-- The trace of `Test.run` (lines 680-691): `browser_start`, then the
flow; on normal completion the done prompt; on a caught exception the
flow stops after its first `k` events and the exception is printed; in
every case the `finally` block then runs `browser_stop`. -/
def run_trace (flowEvents : List Event) : RunOutcome → List Event
  | RunOutcome.ok => Event.browserStart :: flowEvents ++ [Event.donePrompt, Event.browserStop]
  | RunOutcome.navError k => Event.browserStart :: flowEvents.take k ++ [Event.browserStop]
  | RunOutcome.locatorTimeout k => Event.browserStart :: flowEvents.take k ++ [Event.browserStop]
  | RunOutcome.targetClosed k => Event.browserStart :: flowEvents.take k ++ [Event.browserStop]
  | RunOutcome.interrupt k => Event.browserStart :: flowEvents.take k ++ [Event.browserStop]

/-! ## Properties of `unique` -/

lemma mem_uniqueAux {α : Type} [DecidableEq α] (a : α) :
    ∀ (xs seen : List α), a ∈ uniqueAux seen xs ↔ a ∈ xs ∧ a ∉ seen := by
  intro xs
  induction xs with
  | nil => intro seen; simp [uniqueAux]
  | cons x xs ih =>
    intro seen
    by_cases hx : x ∈ seen
    · by_cases hax : a = x
      · subst hax
        simp only [uniqueAux, if_pos hx, ih, List.mem_cons]
        constructor
        · rintro ⟨h1, h2⟩
          exact ⟨Or.inr h1, h2⟩
        · rintro ⟨h1, h2⟩
          exact absurd hx h2
      · simp [uniqueAux, hx, ih, hax]
    · by_cases hax : a = x
      · subst hax
        simp [uniqueAux, hx, ih]
      · simp [uniqueAux, hx, ih, hax, List.mem_cons]

lemma mem_unique {α : Type} [DecidableEq α] (a : α) (xs : List α) :
    a ∈ unique xs ↔ a ∈ xs := by
  simp [unique, mem_uniqueAux]

lemma uniqueAux_sublist {α : Type} [DecidableEq α] :
    ∀ (xs seen : List α), List.Sublist (uniqueAux seen xs) xs := by
  intro xs
  induction xs with
  | nil => intro seen; simp [uniqueAux]
  | cons x xs ih =>
    intro seen
    by_cases hx : x ∈ seen
    · simpa [uniqueAux, hx] using List.Sublist.cons x (ih seen)
    · simpa [uniqueAux, hx] using List.Sublist.cons₂ x (ih (x :: seen))

lemma unique_sublist {α : Type} [DecidableEq α] (xs : List α) :
    List.Sublist (unique xs) xs :=
  uniqueAux_sublist xs []

lemma nodup_uniqueAux {α : Type} [DecidableEq α] :
    ∀ (xs seen : List α), (uniqueAux seen xs).Nodup := by
  intro xs
  induction xs with
  | nil => intro seen; simp [uniqueAux]
  | cons x xs ih =>
    intro seen
    by_cases hx : x ∈ seen
    · simpa [uniqueAux, hx] using ih seen
    · have hmem : x ∉ uniqueAux (x :: seen) xs := by
        rw [mem_uniqueAux]
        rintro ⟨_, h2⟩
        exact h2 (List.mem_cons_self x seen)
      simpa [uniqueAux, hx, List.nodup_cons, hmem] using ih (x :: seen)

lemma nodup_unique {α : Type} [DecidableEq α] (xs : List α) :
    (unique xs).Nodup :=
  nodup_uniqueAux xs []

lemma uniqueAux_eq_self {α : Type} [DecidableEq α] :
    ∀ (xs seen : List α), xs.Nodup → (∀ a ∈ xs, a ∉ seen) → uniqueAux seen xs = xs := by
  intro xs
  induction xs with
  | nil => intro seen _ _; rfl
  | cons x xs ih =>
    intro seen hnd hdisj
    have hx : x ∉ seen := hdisj x (List.mem_cons_self x xs)
    rw [List.nodup_cons] at hnd
    have hrec : uniqueAux (x :: seen) xs = xs := by
      refine ih (x :: seen) hnd.2 ?_
      intro a ha
      rw [List.mem_cons]
      rintro (rfl | hs)
      · exact hnd.1 ha
      · exact hdisj a (List.mem_cons_of_mem x ha) hs
    simp [uniqueAux, hx, hrec]

lemma unique_eq_self_of_nodup {α : Type} [DecidableEq α] (xs : List α)
    (h : xs.Nodup) : unique xs = xs :=
  uniqueAux_eq_self xs [] h (by simp)

lemma unique_idem {α : Type} [DecidableEq α] (xs : List α) :
    unique (unique xs) = unique xs :=
  unique_eq_self_of_nodup (unique xs) (nodup_unique xs)

lemma uniqueAux_congr {α : Type} [DecidableEq α] :
    ∀ (xs s t : List α), (∀ a, a ∈ s ↔ a ∈ t) → uniqueAux s xs = uniqueAux t xs := by
  intro xs
  induction xs with
  | nil => intro s t _; rfl
  | cons x xs ih =>
    intro s t h
    by_cases hx : x ∈ s
    · have hx2 : x ∈ t := (h x).mp hx
      simp [uniqueAux, hx, hx2, ih s t h]
    · have hx2 : x ∉ t := fun hc => hx ((h x).mpr hc)
      have hcons : ∀ a, a ∈ x :: s ↔ a ∈ x :: t := by
        intro a
        simp [List.mem_cons, h a]
      simp [uniqueAux, hx, hx2, ih (x :: s) (x :: t) hcons]

lemma uniqueAux_cons_filter {α : Type} [DecidableEq α] :
    ∀ (xs seen : List α) (x : α),
      uniqueAux (x :: seen) xs = uniqueAux seen (xs.filter (fun y => y ≠ x)) := by
  intro xs
  induction xs with
  | nil => intro seen x; rfl
  | cons y ys ih =>
    intro seen x
    by_cases hyx : y = x
    · subst hyx
      have hy : y ∈ y :: seen := List.mem_cons_self y seen
      have hfil : (y :: ys).filter (fun z => z ≠ y) = ys.filter (fun z => z ≠ y) := by
        rw [List.filter_cons_of_neg]
        simp
      rw [hfil]
      simp only [uniqueAux, if_pos hy]
      exact ih seen y
    · have hfil : (y :: ys).filter (fun z => z ≠ x) = y :: ys.filter (fun z => z ≠ x) := by
        rw [List.filter_cons_of_pos]
        simp [hyx]
      rw [hfil]
      by_cases hys : y ∈ seen
      · have hy : y ∈ x :: seen := List.mem_cons_of_mem x hys
        simp only [uniqueAux, if_pos hy, if_pos hys]
        exact ih seen x
      · have hy : y ∉ x :: seen := by
          rw [List.mem_cons]
          rintro (rfl | hc)
          · exact hyx rfl
          · exact hys hc
        have hswap : uniqueAux (y :: x :: seen) ys = uniqueAux (x :: y :: seen) ys := by
          refine uniqueAux_congr ys (y :: x :: seen) (x :: y :: seen) ?_
          intro a
          simp [List.mem_cons]
          tauto
        simp only [uniqueAux, if_neg hy, if_neg hys]
        rw [hswap]
        exact congrArg (fun l => y :: l) (ih (y :: seen) x)

lemma unique_cons_filter {α : Type} [DecidableEq α] (x : α) (xs : List α) :
    unique (x :: xs) = x :: unique (xs.filter (fun y => y ≠ x)) := by
  show uniqueAux [] (x :: xs) = x :: unique (xs.filter (fun y => y ≠ x))
  simp only [uniqueAux, List.not_mem_nil, if_neg]
  rw [uniqueAux_cons_filter xs [] x]
  simp [unique]

/-! ## Properties of the brute-force loop -/

lemma brute_force_loop_cases (u : String → Bool) (l : List String) :
    (∃ pre p post, l = pre ++ p :: post ∧ (∀ q ∈ pre, u q = false) ∧ u p = true ∧
       brute_force_loop u l = (some p, pre.length + 1) ∧
       brute_force_attempted u l = pre ++ [p]) ∨
    ((∀ q ∈ l, u q = false) ∧ brute_force_loop u l = (none, l.length) ∧
       brute_force_attempted u l = l) := by
  induction l with
  | nil =>
    right
    exact ⟨by simp, rfl, rfl⟩
  | cons p ps ih =>
    by_cases hp : u p = true
    · left
      refine ⟨[], p, ps, rfl, by simp, hp, ?_, ?_⟩
      · simp [brute_force_loop, hp]
      · simp [brute_force_attempted, hp]
    · have hp2 : u p = false := by
        cases h : u p
        · rfl
        · exact absurd h hp
      cases ih with
      | inl h =>
        obtain ⟨pre, q, post, hl, hpre, hq, hloop, hatt⟩ := h
        left
        refine ⟨p :: pre, q, post, by rw [hl, List.cons_append], ?_, hq, ?_, ?_⟩
        · intro r hr
          rw [List.mem_cons] at hr
          cases hr with
          | inl he => rw [he]; exact hp2
          | inr he => exact hpre r he
        · simp [brute_force_loop, hp2, hloop]
        · simp [brute_force_attempted, hp2, hatt]
      | inr h =>
        obtain ⟨hall, hloop, hatt⟩ := h
        right
        refine ⟨?_, ?_, ?_⟩
        · intro r hr
          rw [List.mem_cons] at hr
          cases hr with
          | inl he => rw [he]; exact hp2
          | inr he => exact hall r he
        · simp [brute_force_loop, hp2, hloop]
        · simp [brute_force_attempted, hp2, hatt]

lemma brute_force_attempted_sublist (u : String → Bool) (l : List String) :
    List.Sublist (brute_force_attempted u l) l := by
  induction l with
  | nil => simp [brute_force_attempted]
  | cons p ps ih =>
    by_cases hp : u p = true
    · simp [brute_force_attempted, hp]
    · have hp2 : u p = false := by
        cases h : u p
        · rfl
        · exact absurd h hp
      simpa [brute_force_attempted, hp2] using List.Sublist.cons₂ p ih

/-! ## Properties of the scan loop -/

lemma access_control_loop_map_path (state : String) (m : String → Measurement) :
    ∀ (b : Bool) (paths : List String),
      (access_control_loop state m b paths).map (fun e => e.path) = paths := by
  intro b paths
  induction paths generalizing b with
  | nil => rfl
  | cons p ps ih => simp [access_control_loop, ih]

lemma mem_access_control_loop (state : String) (m : String → Measurement) :
    ∀ (b : Bool) (paths : List String) (e : ScanEntry),
      e ∈ access_control_loop state m b paths →
        e.size = measured_size (m e.path) ∧
        e.flag = leak_flag state (measured_size (m e.path))
          (m e.path).unlockButtonVisible (m e.path).balanceOverviewVisible := by
  intro b paths
  induction paths generalizing b with
  | nil =>
    intro e he
    simp [access_control_loop] at he
  | cons p ps ih =>
    intro e he
    rw [access_control_loop, List.mem_cons] at he
    cases he with
    | inl he =>
      rw [he]
      exact ⟨rfl, rfl⟩
    | inr he =>
      exact ih _ e he

lemma leak_flag_locked (size : Nat) (lockedVisible balanceVisible : Bool) :
    leak_flag ("locked") size lockedVisible balanceVisible = true ↔
      1 ≤ size ∧ lockedVisible = false := by
  have hne : ¬(("locked" : String) = "unlocked") := by decide
  rw [leak_flag]
  by_cases hs : size < 1
  · simp [hs]
  · cases lockedVisible
    · simp [hs, hne]
      omega
    · simp [hs, hne]

lemma leak_flag_unlocked (size : Nat) (lockedVisible balanceVisible : Bool) :
    leak_flag ("unlocked") size lockedVisible balanceVisible = true ↔
      1 ≤ size ∧ balanceVisible = false := by
  have hne : ¬(("unlocked" : String) = "locked") := by decide
  rw [leak_flag]
  by_cases hs : size < 1
  · simp [hs]
  · cases balanceVisible
    · simp [hs, hne]
      omega
    · simp [hs, hne]

lemma leak_flag_size_zero (state : String) (lockedVisible balanceVisible : Bool) :
    leak_flag state 0 lockedVisible balanceVisible = false := by
  rw [leak_flag]
  simp

/-! ## Properties of the run trace -/

lemma run_trace_getLast (flowEvents : List Event) (o : RunOutcome) :
    (run_trace flowEvents o).getLast? = some Event.browserStop := by
  cases o with
  | ok =>
    show (Event.browserStart :: (flowEvents ++ [Event.donePrompt, Event.browserStop])).getLast?
      = some Event.browserStop
    rw [List.getLast?_cons, List.getLast?_append]
    rfl
  | navError k =>
    show (Event.browserStart :: (flowEvents.take k ++ [Event.browserStop])).getLast?
      = some Event.browserStop
    rw [List.getLast?_cons, List.getLast?_append]
    rfl
  | locatorTimeout k =>
    show (Event.browserStart :: (flowEvents.take k ++ [Event.browserStop])).getLast?
      = some Event.browserStop
    rw [List.getLast?_cons, List.getLast?_append]
    rfl
  | targetClosed k =>
    show (Event.browserStart :: (flowEvents.take k ++ [Event.browserStop])).getLast?
      = some Event.browserStop
    rw [List.getLast?_cons, List.getLast?_append]
    rfl
  | interrupt k =>
    show (Event.browserStart :: (flowEvents.take k ++ [Event.browserStop])).getLast?
      = some Event.browserStop
    rw [List.getLast?_cons, List.getLast?_append]
    rfl

lemma run_trace_mem_stop (flowEvents : List Event) (o : RunOutcome) :
    Event.browserStop ∈ run_trace flowEvents o := by
  cases o <;> simp [run_trace]

/-! ## Shared concrete instances used by witnesses and counterexamples -/

/-- An oracle under which no candidate ever unlocks the wallet. -/
def noUnlock : String → Bool := fun _ => false

/-- A measurement oracle: root content visible with text length 7, unlock
button not visible, balance overview not visible. -/
def mAllVisible : String → Measurement := fun _ => Measurement.mk true 7 false false

/-- The oracle of the spec scenario: only the true password
`"Password123!"` unlocks the wallet. -/
def password_oracle (p : String) : Bool := p == "Password123!"

/-! ## Claims -/

/-- C8: the catalog-deduplication step (`unique` with sort disabled) is
idempotent: applying it twice yields the same ordered result as applying
it once. -/
theorem c8_unique_idempotent (xs : List String) :
    unique (unique xs) = unique xs :=
  unique_idem xs

/-- C3: the access-control target catalog is the order-preserving
deduplicated cross product of the page list and the fragment list, the
bare page preceding its fragment combinations; for pages `["/home.html"]`
and fragments `["#send", "#settings"]` it is exactly `["/home.html",
"/home.html#send", "/home.html#settings"]`, and the construction never
produces duplicates. -/
theorem c3_catalog_cross_product :
    (∀ pages fragments : List String, (build_paths pages fragments).Nodup) ∧
    build_paths ["/home.html"] ["#send", "#settings"] =
      ["/home.html", "/home.html#send", "/home.html#settings"] := by
  constructor
  · intro pages fragments
    exact nodup_unique _
  · decide

/-- C2: in the access-control scan, a target is flagged as a leak iff its
measured size is at least 1 and (for required state Locked) the unlock
button is not visible, resp. (for Unlocked) the balance overview is not
visible; a target of measured size 0 is never flagged. -/
theorem c2_leak_flag_policy (m : String → Measurement) (b : Bool)
    (paths : List String) (e : ScanEntry) :
    (e ∈ access_control_loop ("locked") m b paths →
      (e.flag = true ↔ 1 ≤ e.size ∧ (m e.path).unlockButtonVisible = false)) ∧
    (e ∈ access_control_loop ("unlocked") m b paths →
      (e.flag = true ↔ 1 ≤ e.size ∧ (m e.path).balanceOverviewVisible = false)) ∧
    (∀ state, e ∈ access_control_loop state m b paths → e.size = 0 → e.flag = false) := by
  refine ⟨?_, ?_, ?_⟩
  · intro hmem
    obtain ⟨hsize, hflag⟩ := mem_access_control_loop ("locked") m b paths e hmem
    rw [hflag, leak_flag_locked, hsize]
  · intro hmem
    obtain ⟨hsize, hflag⟩ := mem_access_control_loop ("unlocked") m b paths e hmem
    rw [hflag, leak_flag_unlocked, hsize]
  · intro state hmem h0
    obtain ⟨hsize, hflag⟩ := mem_access_control_loop state m b paths e hmem
    have hms : measured_size (m e.path) = 0 := by
      rw [← hsize]
      exact h0
    rw [hflag, hms]
    exact leak_flag_size_zero state _ _

/-- Witness for C2 at a concrete scan: one target, root content of size 7
visible, unlock button absent, required state Locked. -/
theorem c2_leak_flag_policy_witness :
    (ScanEntry.mk ("/home.html") true 7 true).flag = true ↔
      1 ≤ (ScanEntry.mk ("/home.html") true 7 true).size ∧
        (mAllVisible ("/home.html")).unlockButtonVisible = false :=
  (c2_leak_flag_policy mAllVisible true ["/home.html"]
    (ScanEntry.mk ("/home.html") true 7 true)).1 (by decide)

/-- C4: for every run of the access-control scan with a valid required
state, the scan evaluates every entry of the deduplicated catalog exactly
once, in catalog order, whatever the measurement oracle (and hence
however many targets get flagged). -/
theorem c4_scan_visits_catalog_once (value : String) (m : String → Measurement)
    (h : py_lower value = "locked" ∨ py_lower value = "unlocked") :
    ((access_control value m).2.map (fun e => e.path) = ac_paths) ∧
    ac_paths.Nodup ∧
    (∀ p ∈ ac_paths, ((access_control value m).2.map (fun e => e.path)).count p = 1) := by
  have hnd : ac_paths.Nodup := nodup_unique _
  have hmap : (access_control value m).2.map (fun e => e.path) = ac_paths := by
    rcases h with h | h
    · have hrw : access_control value m =
          (some ForcedAction.forceLock, access_control_loop ("locked") m true ac_paths) := by
        simp [access_control, h]
      rw [hrw]
      exact access_control_loop_map_path ("locked") m true ac_paths
    · have hne : ¬(("unlocked" : String) = "locked") := by decide
      have hrw : access_control value m =
          (some ForcedAction.forceUnlock, access_control_loop ("unlocked") m true ac_paths) := by
        simp [access_control, h, hne]
      rw [hrw]
      exact access_control_loop_map_path ("unlocked") m true ac_paths
  refine ⟨hmap, hnd, ?_⟩
  intro p hp
  rw [hmap]
  exact List.count_eq_one_of_mem hnd hp

/-- Witness for C4 with the state literal `"locked"` and a concrete
measurement oracle. -/
theorem c4_scan_visits_catalog_once_witness :
    (access_control ("locked") mAllVisible).2.map (fun e => e.path) = ac_paths :=
  (c4_scan_visits_catalog_once ("locked") mAllVisible (Or.inl (by decide))).1

/-- C10: the access-control scan lowercases the supplied state literal
before comparing (so `"Locked"` and `"LOCKED"` behave as `"locked"`), and
for every value whose lowercase form is neither `"locked"` nor
`"unlocked"` (the empty value included) it reports the error and returns
with no forced state change and zero targets evaluated. -/
theorem c10_state_literal_case_insensitive (m : String → Measurement) :
    access_control ("Locked") m = access_control ("locked") m ∧
    access_control ("LOCKED") m = access_control ("locked") m ∧
    (access_control ("locked") m).1 = some ForcedAction.forceLock ∧
    (access_control ("Unlocked") m).1 = some ForcedAction.forceUnlock ∧
    access_control ("") m = (none, []) ∧
    (∀ v, py_lower v ≠ "locked" → py_lower v ≠ "unlocked" →
      access_control v m = (none, [])) := by
  have e1 : py_lower ("Locked") = "locked" := by decide
  have e2 : py_lower ("LOCKED") = "locked" := by decide
  have e3 : py_lower ("locked") = "locked" := by decide
  have e4 : py_lower ("Unlocked") = "unlocked" := by decide
  have hne : ¬(("unlocked" : String) = "locked") := by decide
  refine ⟨?_, ?_, ?_, ?_, ?_, ?_⟩
  · simp [access_control, e1, e3]
  · simp [access_control, e2, e3]
  · simp [access_control, e3]
  · simp [access_control, e4, hne]
  · have e5 : py_lower ("") = "" := by decide
    simp [access_control, e5]
  · intro v h1 h2
    simp [access_control, h1, h2]

/-- Witness for C10: a value that lowercases to neither literal is
rejected with no forced state change and no evaluated target. -/
theorem c10_state_literal_case_insensitive_witness :
    access_control ("xyz") mAllVisible = (none, []) :=
  (c10_state_literal_case_insensitive mAllVisible).2.2.2.2.2 ("xyz")
    (by decide) (by decide)

/-- C1: for every non-empty wordlist, the brute-force probe iterates the
deduplicated, order-preserved candidate list, each candidate attempted at
most once; it stops at and reports the first candidate whose attempt
leaves the oracle no longer Locked, and when no candidate does it finishes
the whole list as a negative finding (a normal return, the credential
`none`), not an error.  Termination is the totality of
`unlock_brute_force`. -/
theorem c1_brute_force_first_success_or_exhaustion
    (fileLines : List String) (unlocks : String → Bool)
    (_hne : read_array fileLines ≠ []) :
    (read_array fileLines).Nodup ∧
    (brute_force_attempted unlocks (read_array fileLines)).Nodup ∧
    ((∃ pre p post, read_array fileLines = pre ++ p :: post ∧
        (∀ q ∈ pre, unlocks q = false) ∧ unlocks p = true ∧
        unlock_brute_force fileLines unlocks = (some p, pre.length + 1) ∧
        brute_force_attempted unlocks (read_array fileLines) = pre ++ [p]) ∨
      ((∀ q ∈ read_array fileLines, unlocks q = false) ∧
        unlock_brute_force fileLines unlocks = (none, (read_array fileLines).length) ∧
        brute_force_attempted unlocks (read_array fileLines) = read_array fileLines)) := by
  have hnd : (read_array fileLines).Nodup := nodup_unique _
  refine ⟨hnd, ?_, ?_⟩
  · exact List.Nodup.sublist (brute_force_attempted_sublist unlocks (read_array fileLines)) hnd
  · exact brute_force_loop_cases unlocks (read_array fileLines)

/-- Witness for C1 on the two-line wordlist `["a", "b"]` with an oracle
that never unlocks. -/
theorem c1_brute_force_first_success_or_exhaustion_witness :
    (read_array ["a", "b"]).Nodup :=
  (c1_brute_force_first_success_or_exhaustion ["a", "b"] noUnlock (by decide)).1

/-- C9: every candidate the brute-force probe attempts is a non-empty
string equal to some line of the wordlist file with surrounding
whitespace stripped; no candidate is attempted twice; and the
deduplication keeps a repeated value exactly at the position of its first
occurrence (`unique (x :: xs)` is `x` followed by `unique` of the rest
with every later copy of `x` erased). -/
theorem c9_attempts_are_stripped_file_lines
    (lines : List String) (unlocks : String → Bool) :
    (∀ p ∈ brute_force_attempted unlocks (read_array lines),
       p ≠ "" ∧ ∃ l ∈ lines, py_strip_ws l = p) ∧
    (brute_force_attempted unlocks (read_array lines)).Nodup ∧
    (∀ (x : String) (xs : List String),
       unique (x :: xs) = x :: unique (xs.filter (fun y => y ≠ x))) := by
  have hnd : (read_array lines).Nodup := nodup_unique _
  refine ⟨?_, ?_, ?_⟩
  · intro p hp
    have hp2 : p ∈ read_array lines :=
      (brute_force_attempted_sublist unlocks (read_array lines)).subset hp
    rw [read_array, mem_unique, List.mem_filter] at hp2
    obtain ⟨hmap, hblank⟩ := hp2
    refine ⟨by simpa using hblank, ?_⟩
    obtain ⟨l, hl, hstrip⟩ := List.mem_map.mp hmap
    exact ⟨l, hl, hstrip⟩
  · exact List.Nodup.sublist (brute_force_attempted_sublist unlocks (read_array lines)) hnd
  · intro x xs
    exact unique_cons_filter x xs

/-- Witness for C9: the single stripped line of the wordlist
`[" a "]` is the non-blank candidate `"a"`. -/
theorem c9_attempts_are_stripped_file_lines_witness :
    ("a" : String) ≠ "" ∧ ∃ l ∈ [" a "], py_strip_ws l = "a" :=
  (c9_attempts_are_stripped_file_lines [" a "] noUnlock).1 ("a") (by decide)

/-- C7 counterexample: in the spec scenario — wordlist
`["a", "Password123!", "b"]`, true password `"Password123!"` — the probe
reports the credential after two attempts of which exactly one failed
(the attempt of `"a"`); the claimed count of two failed attempts is
false. -/
theorem c7_counterexample_one_failed_attempt :
    unlock_brute_force ["a", "Password123!", "b"] password_oracle =
      (some ("Password123!"), 2) ∧
    brute_force_failed password_oracle (read_array ["a", "Password123!", "b"]) = 1 ∧
    ¬ brute_force_failed password_oracle (read_array ["a", "Password123!", "b"]) = 2 := by
  decide

/-- C7 (amended): in the spec scenario the probe reports the discovered
credential `"Password123!"` on its second attempt — after exactly one
failed attempt — having attempted exactly `["a", "Password123!"]`. -/
theorem c7_discovered_on_second_attempt :
    unlock_brute_force ["a", "Password123!", "b"] password_oracle =
      (some ("Password123!"), 2) ∧
    brute_force_attempted password_oracle (read_array ["a", "Password123!", "b"]) =
      ["a", "Password123!"] ∧
    brute_force_failed password_oracle (read_array ["a", "Password123!", "b"]) = 1 := by
  decide

/-- C6: for every run outcome — normal completion, any caught failure
(navigation error, locator timeout, target closed) or an operator
interrupt, raised after any prefix of the flow — the browser teardown
event is in the run trace and is its last event. -/
theorem c6_teardown_always_runs (flowEvents : List Event) (o : RunOutcome) :
    Event.browserStop ∈ run_trace flowEvents o ∧
    (run_trace flowEvents o).getLast? = some Event.browserStop :=
  ⟨run_trace_mem_stop flowEvents o, run_trace_getLast flowEvents o⟩

/-- C5 counterexample: in the run of the brute-force probe with the
wordlist value missing (created wallet, initially unlocked page), the
trace contains the browser launch, the navigation to the extension and
the forced lock as well as the missing-wordlist error report — the claim
that the missing value aborts the program without launching the browser
or performing any browser action is false. -/
theorem c5_counterexample_error_after_launch :
    Event.browserStart ∈
      run_trace (unlock_brute_force_events true false ("") [] noUnlock) RunOutcome.ok ∧
    Event.gotoExt ("") ∈
      run_trace (unlock_brute_force_events true false ("") [] noUnlock) RunOutcome.ok ∧
    Event.forceLock ∈
      run_trace (unlock_brute_force_events true false ("") [] noUnlock) RunOutcome.ok ∧
    Event.errorReport wordlistRequiredMsg ∈
      run_trace (unlock_brute_force_events true false ("") [] noUnlock) RunOutcome.ok := by
  decide

/-- C5 (amended): a missing required extra value is reported as an error
inside the flow, after the browser has been launched and the extension
page opened (for the brute-force probe also after forcing the lock, for
the import flow after the first onboarding clicks); the flow performs
none of its probe actions — no unlock attempt, no recovery-phrase fill,
no target evaluation — and the run then completes with the browser
teardown. -/
theorem c5_missing_value_reported_inside_flow :
    run_trace (unlock_brute_force_events true false ("") [] noUnlock) RunOutcome.ok =
      [Event.browserStart, Event.newPage, Event.gotoExt (""), Event.forceLock,
       Event.errorReport wordlistRequiredMsg, Event.donePrompt, Event.browserStop] ∧
    run_trace (existing_events false ("")) RunOutcome.ok =
      [Event.browserStart, Event.newPage, Event.gotoExt (""), Event.tickBox,
       Event.submitBtn ("import an existing wallet"), Event.submitBtn ("no thanks"),
       Event.errorReport mnemonicRequiredMsg, Event.donePrompt, Event.browserStop] ∧
    run_trace (access_control_events true ("") mAllVisible) RunOutcome.ok =
      [Event.browserStart, Event.newPage, Event.gotoExt (""),
       Event.errorReport stateRequiredMsg, Event.donePrompt, Event.browserStop] := by
  decide
